import Mathlib

/- Verification of the news-scraping management command in
   news_site/news/management/commands/scrape_news.py together with the page
   models in news_site/news/models.py.  Pure fragments of the command are
   embedded as Lean functions over lists of characters; the effectful pipeline
   (HTTP fetch, generative-model call, JSON decoding, Django ORM persistence)
   is embedded as a step function over an explicit store of article pages,
   with the outcomes of the external world supplied as scenario data and an
   uncaught Python exception modelled by an error-carrying result type. -/

namespace ScrapeNews

/-- The opening brace character, written via its code point. -/
def lbrace : Char := Char.ofNat 123

/-- The closing brace character, written via its code point. -/
def rbrace : Char := Char.ofNat 125

/-- Embedding of Python str.find for a single character: the index of its
first occurrence, or none (Python returns -1). -/
def pyFind (c : Char) : List Char → Option Nat
  | [] => none
  | x :: xs => if x = c then some 0 else (pyFind c xs).map (· + 1)

/-- Embedding of Python str.rfind for a single character: the index of its
last occurrence, or none (Python returns -1). -/
def pyRfind (c : Char) (l : List Char) : Option Nat :=
  (pyFind c l.reverse).map (fun i => l.length - 1 - i)

/-- A Python value reaching clean_json_response: either a str (as a character
list) or any non-str value. -/
inductive PyVal where
  | pyStr (text : List Char)
  | nonStr

/-- Embedding of clean_json_response (scrape_news.py, lines 24-35): a non-str
input yields None; otherwise locate the first opening brace and the last
closing brace and return the inclusive slice between them, or None when
either index is absent.  Python slicing text[s:e+1] clamps, which the
drop/take combination reproduces. -/
def clean_json_response : PyVal → Option (List Char)
  | PyVal.nonStr => none
  | PyVal.pyStr text =>
    match pyFind lbrace text, pyRfind rbrace text with
    | some s, some e => some ((text.drop s).take (e + 1 - s))
    | some _, none => none
    | none, _ => none

theorem pyFind_eq_none_iff (c : Char) (l : List Char) : pyFind c l = none ↔ c ∉ l := by
  induction l with
  | nil => simp [pyFind]
  | cons x xs ih =>
    by_cases hx : x = c
    · subst hx
      simp [pyFind]
    · have hcx : ¬ c = x := fun h => hx h.symm
      simp [pyFind, hx, Option.map_eq_none', ih, List.mem_cons, hcx]

theorem mem_of_pyFind_eq_some (c : Char) (l : List Char) (i : Nat)
    (h : pyFind c l = some i) : c ∈ l := by
  by_contra hc
  rw [← pyFind_eq_none_iff] at hc
  rw [hc] at h
  exact Option.noConfusion h

theorem pyFind_head (c : Char) (l : List Char) (h : l.head? = some c) :
    pyFind c l = some 0 := by
  cases l with
  | nil => simp at h
  | cons x xs =>
    simp only [List.head?, Option.some.injEq] at h
    simp [pyFind, h]

theorem pyFind_append_of_not_mem (c : Char) (p l : List Char) (hp : c ∉ p) :
    pyFind c (p ++ l) = (pyFind c l).map (· + p.length) := by
  induction p with
  | nil => cases h : pyFind c l <;> simp [h]
  | cons y ys ih =>
    have hy : ¬ y = c := fun h => hp (by simp [h])
    have hys : c ∉ ys := fun h => hp (List.mem_cons_of_mem _ h)
    cases h : pyFind c l with
    | none => simp [pyFind, hy, ih hys, h]
    | some i =>
      simp [pyFind, hy, ih hys, h]
      omega

theorem pyFind_append_head (c : Char) (p l : List Char) (hp : c ∉ p)
    (hl : l.head? = some c) : pyFind c (p ++ l) = some p.length := by
  rw [pyFind_append_of_not_mem c p l hp, pyFind_head c l hl]
  simp

theorem pyRfind_eq_none_iff (c : Char) (l : List Char) : pyRfind c l = none ↔ c ∉ l := by
  unfold pyRfind
  rw [Option.map_eq_none', pyFind_eq_none_iff, List.mem_reverse]

theorem mem_of_pyRfind_eq_some (c : Char) (l : List Char) (i : Nat)
    (h : pyRfind c l = some i) : c ∈ l := by
  by_contra hc
  rw [← pyRfind_eq_none_iff] at hc
  rw [hc] at h
  exact Option.noConfusion h

theorem pyRfind_last (c : Char) (p j q : List Char) (hq : c ∉ q)
    (hj : j.getLast? = some c) :
    pyRfind c (p ++ j ++ q) = some (p.length + j.length - 1) := by
  have hqr : c ∉ q.reverse := by simpa using hq
  have hjr : j.reverse.head? = some c := by simp [hj]
  have hhead : (j.reverse ++ p.reverse).head? = some c := by
    cases hc : j.reverse with
    | nil =>
      rw [hc] at hjr
      simp at hjr
    | cons a t =>
      rw [hc] at hjr
      simp only [List.head?, Option.some.injEq] at hjr
      simp [List.head?, hjr]
  have hrev : (p ++ j ++ q).reverse = q.reverse ++ (j.reverse ++ p.reverse) := by
    simp [List.reverse_append]
  have hlen : 1 ≤ j.length := by
    cases j with
    | nil => simp at hj
    | cons a t => simp
  have hfind := pyFind_append_head c q.reverse (j.reverse ++ p.reverse) hqr hhead
  unfold pyRfind
  rw [hrev, hfind]
  simp only [Option.map_some', Option.some.injEq, List.length_append,
    List.length_reverse]
  omega

/-- C5: the validator's JSON-candidate extraction.  First, on a str input the
result is None exactly when the text has no opening or no closing brace.
Second, for a text consisting of a block that starts with an opening brace and
ends with a closing brace, wrapped in prose with no opening brace before it
and no closing brace after it, the extraction returns exactly that block, so a
single JSON object surrounded by prose is recovered verbatim and handed to the
JSON parser unchanged.  Third, whenever both braces occur, the result is the
inclusive slice from the first opening brace to the last closing brace. -/
theorem c5_clean_json_extraction :
    (∀ l : List Char,
      clean_json_response (PyVal.pyStr l) = none ↔ (lbrace ∉ l ∨ rbrace ∉ l)) ∧
    (∀ p1 j p2 : List Char, lbrace ∉ p1 → rbrace ∉ p2 →
      j.head? = some lbrace → j.getLast? = some rbrace →
      clean_json_response (PyVal.pyStr (p1 ++ j ++ p2)) = some j) ∧
    (∀ (l : List Char) (s e : Nat),
      pyFind lbrace l = some s → pyRfind rbrace l = some e →
      clean_json_response (PyVal.pyStr l) = some ((l.drop s).take (e + 1 - s))) := by
  refine ⟨?_, ?_, ?_⟩
  · intro l
    cases hf : pyFind lbrace l with
    | none =>
      have hm : lbrace ∉ l := (pyFind_eq_none_iff lbrace l).mp hf
      simp [clean_json_response, hf, hm]
    | some s =>
      have hm : lbrace ∈ l := mem_of_pyFind_eq_some lbrace l s hf
      cases hr : pyRfind rbrace l with
      | none =>
        have hm2 : rbrace ∉ l := (pyRfind_eq_none_iff rbrace l).mp hr
        simp [clean_json_response, hf, hr, hm, hm2]
      | some e =>
        have hm2 : rbrace ∈ l := mem_of_pyRfind_eq_some rbrace l e hr
        simp [clean_json_response, hf, hr, hm, hm2]
  · intro p1 j p2 h1 h2 hjh hjl
    have hhead : (j ++ p2).head? = some lbrace := by
      cases hc : j with
      | nil =>
        rw [hc] at hjh
        simp at hjh
      | cons a t =>
        rw [hc] at hjh
        simp only [List.head?, Option.some.injEq] at hjh
        simp [List.head?, hjh]
    have hs : pyFind lbrace (p1 ++ j ++ p2) = some p1.length := by
      rw [List.append_assoc]
      exact pyFind_append_head lbrace p1 (j ++ p2) h1 hhead
    have he := pyRfind_last rbrace p1 j p2 h2 hjl
    have hlen : 1 ≤ j.length := by
      cases j with
      | nil => simp at hjl
      | cons a t => simp
    have harith : p1.length + j.length - 1 + 1 - p1.length = j.length := by omega
    simp only [clean_json_response, hs, he, harith]
    rw [List.append_assoc, List.drop_left, List.take_left]
  · intro l s e hs he
    simp [clean_json_response, hs, he]

theorem c5_witness :
    clean_json_response
        (PyVal.pyStr (['a', 'b'] ++ [lbrace, 'x', rbrace] ++ ['c', 'd'])) =
      some [lbrace, 'x', rbrace] :=
  c5_clean_json_extraction.2.1 ['a', 'b'] [lbrace, 'x', rbrace] ['c', 'd']
    (by decide) (by decide) (by decide) (by decide)

/-- C9: a non-str input makes clean_json_response return None; and when both
braces occur but the last closing brace sits strictly before the first opening
brace, the function still returns a slice (namely the empty one) rather than
None, so such a text is passed on to the JSON parser instead of being rejected
as having no JSON. -/
theorem c9_reversed_braces :
    clean_json_response PyVal.nonStr = none ∧
    (∀ (l : List Char) (s e : Nat),
      pyFind lbrace l = some s → pyRfind rbrace l = some e → e < s →
      clean_json_response (PyVal.pyStr l) = some []) := by
  refine ⟨rfl, ?_⟩
  intro l s e hs he hlt
  have h1 : e + 1 - s = 0 := by omega
  simp [clean_json_response, hs, he, h1]

theorem c9_witness :
    clean_json_response (PyVal.pyStr [rbrace, 'x', lbrace]) = some [] :=
  c9_reversed_braces.2 [rbrace, 'x', lbrace] 2 0 (by decide) (by decide) (by decide)

/-- The persisted fields of a NewsArticlePage (models.py, lines 7-20) touched
by the command, together with the slug and the page-tree parent that Wagtail
stores with every page.  Dates and page ids are abstracted as naturals. -/
structure ArticlePage where
  title : String
  summary : String
  source_url : String
  publication_date : Nat
  slug : String
  parent : Nat
deriving DecidableEq

/-- A validated article candidate, with source_url already rendered back to a
string as in str(article_data.source_url). -/
structure Article where
  title : String
  summary : String
  source_url : String
deriving DecidableEq

/-- Ambient data of one run: the current date, the id of the single live
NewsListPage, and Python's process-seeded hash on title strings (used only
for the generated slug). -/
structure RunCtx where
  today : Nat
  listingId : Nat
  hashFn : String → Nat

/-- The source_urls of the stored pages, in store order. -/
def urls (store : List ArticlePage) : List String :=
  store.map (fun p => p.source_url)

/-- Embedding of NewsArticlePage.objects.get(source_url=...) as a lookup in
the store; the unique constraint on source_url guarantees at most one hit. -/
def findPage (store : List ArticlePage) (u : String) : Option ArticlePage :=
  store.find? (fun p => p.source_url == u)

/-- The page built in the DoesNotExist branch (scrape_news.py, lines 122-130):
candidate title, summary and source_url, the run's date, a slug derived from
the Python hash of the title modulo 100000, attached under the listing page. -/
def mkNewPage (ctx : RunCtx) (a : Article) : ArticlePage :=
  { title := a.title
    summary := a.summary
    source_url := a.source_url
    publication_date := ctx.today
    slug := "article-gemini-" ++ toString (ctx.hashFn a.title % 100000)
    parent := ctx.listingId }

/-- Overwrite title and summary of the page the get call returned — the first
(under the unique constraint, the only) page whose source_url matches —
leaving every other field and every other page untouched. -/
def updateFirstMatch (u t s : String) : List ArticlePage → List ArticlePage
  | [] => []
  | p :: rest =>
    if p.source_url = u then { p with title := t, summary := s } :: rest
    else p :: updateFirstMatch u t s rest

/-- Embedding of the store effect of one iteration of the upsert loop
(scrape_news.py, lines 115-131) when persistence succeeds: overwrite the
existing page in place, or append a fresh child of the listing page. -/
def upsertArticle (ctx : RunCtx) (a : Article) (store : List ArticlePage) :
    List ArticlePage :=
  match findPage store a.source_url with
  | some _ => updateFirstMatch a.source_url a.title a.summary store
  | none => store ++ [mkNewPage ctx a]

theorem findPage_eq_none_iff (store : List ArticlePage) (u : String) :
    findPage store u = none ↔ u ∉ urls store := by
  simp only [findPage, List.find?_eq_none, urls, List.mem_map, beq_iff_eq]
  constructor
  · rintro h ⟨p, hp, hpu⟩
    exact h p hp hpu
  · intro h p hp hpu
    exact h ⟨p, hp, hpu⟩

theorem updateFirstMatch_map {α : Type} (u t s : String) (f : ArticlePage → α)
    (hf : ∀ p, f { p with title := t, summary := s } = f p) :
    ∀ store, (updateFirstMatch u t s store).map f = store.map f := by
  intro store
  induction store with
  | nil => rfl
  | cons p rest ih =>
    by_cases hp : p.source_url = u
    · simp only [updateFirstMatch, if_pos hp, List.map_cons, ih]
      rw [hf p]
    · simp [updateFirstMatch, hp, ih]

theorem urls_updateFirstMatch (u t s : String) (store : List ArticlePage) :
    urls (updateFirstMatch u t s store) = urls store :=
  updateFirstMatch_map u t s (fun p => p.source_url) (fun _ => rfl) store

theorem length_updateFirstMatch (u t s : String) (store : List ArticlePage) :
    (updateFirstMatch u t s store).length = store.length := by
  induction store with
  | nil => rfl
  | cons p rest ih =>
    by_cases hp : p.source_url = u
    · simp [updateFirstMatch, hp]
    · simp [updateFirstMatch, hp, ih]

theorem updateFirstMatch_decomp (u t s : String) (store : List ArticlePage)
    (h : u ∈ urls store) :
    ∃ pre p post, store = pre ++ p :: post ∧ p.source_url = u ∧
      updateFirstMatch u t s store =
        pre ++ ({ p with title := t, summary := s }) :: post := by
  induction store with
  | nil => simp [urls] at h
  | cons q rest ih =>
    by_cases hq : q.source_url = u
    · exact ⟨[], q, rest, by simp, hq, by simp [updateFirstMatch, hq]⟩
    · have h' : u ∈ urls rest := by
        have hcase : u = q.source_url ∨ u ∈ urls rest := by simpa [urls] using h
        rcases hcase with h1 | h2
        · exact absurd h1.symm hq
        · exact h2
      rcases ih h' with ⟨pre, p, post, hst, hpu, hupd⟩
      exact ⟨q :: pre, p, post, by simp [hst], hpu,
        by simp [updateFirstMatch, hq, hupd]⟩

theorem urls_append_new (ctx : RunCtx) (a : Article) (store : List ArticlePage) :
    urls (store ++ [mkNewPage ctx a]) = urls store ++ [a.source_url] := by
  simp [urls, mkNewPage]

theorem upsertArticle_of_mem (ctx : RunCtx) (a : Article) (store : List ArticlePage)
    (h : a.source_url ∈ urls store) :
    (upsertArticle ctx a store).length = store.length ∧
    urls (upsertArticle ctx a store) = urls store := by
  cases hf : findPage store a.source_url with
  | none => exact absurd ((findPage_eq_none_iff store a.source_url).mp hf) (fun hc => hc h)
  | some p =>
    constructor
    · simp [upsertArticle, hf, length_updateFirstMatch]
    · simp [upsertArticle, hf, urls_updateFirstMatch]

theorem mem_urls_upsert (ctx : RunCtx) (a : Article) (store : List ArticlePage) :
    a.source_url ∈ urls (upsertArticle ctx a store) := by
  cases hf : findPage store a.source_url with
  | none =>
    simp [upsertArticle, hf, urls_append_new]
  | some p =>
    have hm : a.source_url ∈ urls store := by
      by_contra hc
      rw [← findPage_eq_none_iff] at hc
      rw [hc] at hf
      exact Option.noConfusion hf
    have := (upsertArticle_of_mem ctx a store hm).2
    rw [this]
    exact hm

theorem urls_subset_upsert (ctx : RunCtx) (a : Article) (store : List ArticlePage) :
    ∀ u ∈ urls store, u ∈ urls (upsertArticle ctx a store) := by
  intro u hu
  cases hf : findPage store a.source_url with
  | none =>
    rw [show upsertArticle ctx a store = store ++ [mkNewPage ctx a] from
      by simp [upsertArticle, hf], urls_append_new]
    exact List.mem_append_left _ hu
  | some p =>
    rw [show upsertArticle ctx a store = updateFirstMatch a.source_url a.title a.summary store from
      by simp [upsertArticle, hf], urls_updateFirstMatch]
    exact hu

/-- C1: one step of the upsert loop.  A candidate whose source_url is not yet
in the store appends exactly one new page, a child of the listing node; a
candidate whose source_url is present keeps the store length and its url list
unchanged (so no duplicate is created); the invariant that the stored
source_urls are pairwise distinct is preserved; and upserting the same key a
second time, with any title and summary, never adds a page. -/
theorem c1_upsert_unique_per_url (ctx : RunCtx) (a : Article) (store : List ArticlePage)
    (hinv : (urls store).Nodup) :
    (a.source_url ∉ urls store →
      upsertArticle ctx a store = store ++ [mkNewPage ctx a] ∧
      (mkNewPage ctx a).parent = ctx.listingId) ∧
    (a.source_url ∈ urls store →
      (upsertArticle ctx a store).length = store.length ∧
      urls (upsertArticle ctx a store) = urls store) ∧
    (urls (upsertArticle ctx a store)).Nodup ∧
    (∀ (ctx2 : RunCtx) (t2 s2 : String),
      (upsertArticle ctx2 ⟨t2, s2, a.source_url⟩ (upsertArticle ctx a store)).length =
        (upsertArticle ctx a store).length) := by
  refine ⟨?_, upsertArticle_of_mem ctx a store, ?_, ?_⟩
  · intro hm
    have hf : findPage store a.source_url = none :=
      (findPage_eq_none_iff store a.source_url).mpr hm
    exact ⟨by simp [upsertArticle, hf], rfl⟩
  · cases hf : findPage store a.source_url with
    | none =>
      have hm : a.source_url ∉ urls store := (findPage_eq_none_iff store a.source_url).mp hf
      rw [show upsertArticle ctx a store = store ++ [mkNewPage ctx a] from
        by simp [upsertArticle, hf], urls_append_new]
      simp [List.nodup_append, hinv, hm]
    | some p =>
      have hm : a.source_url ∈ urls store := by
        by_contra hc
        rw [← findPage_eq_none_iff] at hc
        rw [hc] at hf
        exact Option.noConfusion hf
      rw [(upsertArticle_of_mem ctx a store hm).2]
      exact hinv
  · intro ctx2 t2 s2
    have hm : (Article.mk t2 s2 a.source_url).source_url ∈ urls (upsertArticle ctx a store) :=
      mem_urls_upsert ctx a store
    exact (upsertArticle_of_mem ctx2 ⟨t2, s2, a.source_url⟩ (upsertArticle ctx a store) hm).1

theorem c1_witness :
    upsertArticle ⟨7, 1, fun _ => 0⟩ ⟨"T1", "S1", "http://x/a"⟩ [] =
      [] ++ [mkNewPage ⟨7, 1, fun _ => 0⟩ ⟨"T1", "S1", "http://x/a"⟩] ∧
    (mkNewPage ⟨7, 1, fun _ => 0⟩ ⟨"T1", "S1", "http://x/a"⟩).parent = 1 :=
  (c1_upsert_unique_per_url ⟨7, 1, fun _ => 0⟩ ⟨"T1", "S1", "http://x/a"⟩ []
      (by simp [urls])).1 (by simp [urls])

/-- The fields of a page the update path must not touch. -/
def frameFields (p : ArticlePage) : String × Nat × String × Nat :=
  (p.source_url, p.publication_date, p.slug, p.parent)

/-- C8: updating an existing candidate overwrites exactly title and summary:
positionally, the source_url, publication_date, slug and parent of every
stored page are unchanged; the matched page reappears with the candidate's
title and summary and all its other fields intact; and no upsert — update or
create, for any candidate — ever removes a page from the store. -/
theorem c8_update_frame (ctx : RunCtx) (a : Article) (store : List ArticlePage)
    (h : a.source_url ∈ urls store) :
    (upsertArticle ctx a store).map frameFields = store.map frameFields ∧
    (∃ pre p post, store = pre ++ p :: post ∧ p.source_url = a.source_url ∧
      upsertArticle ctx a store =
        pre ++ ({ p with title := a.title, summary := a.summary }) :: post) ∧
    (∀ (a2 : Article) (q : ArticlePage), q ∈ store →
      ∃ r ∈ upsertArticle ctx a2 store, r.source_url = q.source_url) := by
  have hf : ∃ p, findPage store a.source_url = some p := by
    cases hc : findPage store a.source_url with
    | none => exact absurd ((findPage_eq_none_iff store a.source_url).mp hc) (fun hx => hx h)
    | some p => exact ⟨p, rfl⟩
  rcases hf with ⟨p0, hf⟩
  have hup : upsertArticle ctx a store = updateFirstMatch a.source_url a.title a.summary store :=
    by simp [upsertArticle, hf]
  refine ⟨?_, ?_, ?_⟩
  · rw [hup]
    exact updateFirstMatch_map a.source_url a.title a.summary frameFields (fun _ => rfl) store
  · rcases updateFirstMatch_decomp a.source_url a.title a.summary store h with
      ⟨pre, p, post, hst, hpu, hupd⟩
    exact ⟨pre, p, post, hst, hpu, by rw [hup, hupd]⟩
  · intro a2 q hq
    have hqu : q.source_url ∈ urls store := List.mem_map_of_mem _ hq
    have hmem := urls_subset_upsert ctx a2 store q.source_url hqu
    rcases List.mem_map.mp hmem with ⟨r, hr, hru⟩
    exact ⟨r, hr, hru⟩

theorem c8_witness :
    (upsertArticle ⟨7, 1, fun _ => 0⟩ ⟨"T1", "S1", "http://x/a"⟩
        [⟨"Old", "OldSum", "http://x/a", 3, "slug-a", 1⟩]).map frameFields =
      [(⟨"Old", "OldSum", "http://x/a", 3, "slug-a", 1⟩ : ArticlePage)].map frameFields :=
  (c8_update_frame ⟨7, 1, fun _ => 0⟩ ⟨"T1", "S1", "http://x/a"⟩
      [⟨"Old", "OldSum", "http://x/a", 3, "slug-a", 1⟩] (by decide)).1

/-- A ScrapingSource snippet (models.py, lines 43-82). -/
structure Source where
  name : String
  url_to_scrape : String
  base_url : String
  html_selector : String
  is_active : Bool
deriving DecidableEq

/-- Log and side-effect events of one run, in emission order. -/
inductive Event where
  | configError
  | noSourceError
  | noListingError
  | scrapingSource (name : String)
  | httpGet (url : String)
  | fetchError
  | selectorError
  | modelCall
  | emptyResponseError
  | noJsonError
  | processingError
  | updated (title : String)
  | added (title : String)
  | done
deriving DecidableEq

/-- The Python exception escaping the upsert loop when a save or add_child
call fails. -/
inductive PersistError where
  | saveFailed (title : String)
deriving DecidableEq

/-- Result of running part of the pipeline over the store: normal completion
or an uncaught exception, both carrying the store and the log events produced
so far (saves committed before an exception stay committed). -/
inductive RunOut where
  | ok (store : List ArticlePage) (events : List Event)
  | err (e : PersistError) (store : List ArticlePage) (events : List Event)
deriving DecidableEq

def RunOut.isOk : RunOut → Bool
  | .ok _ _ => true
  | .err _ _ _ => false

def RunOut.events : RunOut → List Event
  | .ok _ evs => evs
  | .err _ _ evs => evs

def RunOut.pages : RunOut → List ArticlePage
  | .ok st _ => st
  | .err _ st _ => st

def RunOut.error? : RunOut → Option PersistError
  | .ok _ _ => none
  | .err e _ _ => some e

/-- Emit the given events before those of the result. -/
def RunOut.prepend (pre : List Event) : RunOut → RunOut
  | .ok st evs => .ok st (pre ++ evs)
  | .err e st evs => .err e st (pre ++ evs)

theorem RunOut.isOk_prepend (pre : List Event) (r : RunOut) :
    (r.prepend pre).isOk = r.isOk := by cases r <;> rfl

theorem RunOut.events_prepend (pre : List Event) (r : RunOut) :
    (r.prepend pre).events = pre ++ r.events := by cases r <;> rfl

theorem RunOut.pages_prepend (pre : List Event) (r : RunOut) :
    (r.prepend pre).pages = r.pages := by cases r <;> rfl

theorem RunOut.error?_prepend (pre : List Event) (r : RunOut) :
    (r.prepend pre).error? = r.error? := by cases r <;> rfl

/-- Outcome of requests.get plus raise_for_status plus select_one for one
source: the request raises, or the page arrives and the CSS selector matches
nothing or yields a snippet. -/
inductive FetchResult where
  | httpError
  | page (selectorMatch : Option String)

/-- Outcome of the generative-model call: a provider exception, a completion
with no parts, or a raw text response. -/
inductive ModelResult where
  | providerError
  | emptyParts
  | modelText (raw : List Char)

/-- External behaviour of one source's pass: what network and provider
return, an oracle for json.loads plus pydantic validation applied to the
extracted candidate (error standing for any exception the broad except
catches), and which articles' save or add_child calls raise. -/
structure SourceScenario where
  fetch : FetchResult
  model : ModelResult
  decode : List Char → Except Unit (List Article)
  persistFail : Article → Bool

/-- The log line of a successful upsert iteration: Updated on the get branch,
Added on the DoesNotExist branch. -/
def articleEvent (store : List ArticlePage) (a : Article) : Event :=
  match findPage store a.source_url with
  | some _ => Event.updated a.title
  | none => Event.added a.title

/-- Embedding of the upsert loop (scrape_news.py, lines 115-131).  Only the
DoesNotExist exception is handled, by creating the page; a failing save or
add_child raises out of the loop, leaving the store as the already committed
iterations left it and logging nothing for the failing article. -/
def processArticles (ctx : RunCtx) (pf : Article → Bool) :
    List Article → List ArticlePage → RunOut
  | [], store => RunOut.ok store []
  | a :: rest, store =>
    if pf a then RunOut.err (PersistError.saveFailed a.title) store []
    else (processArticles ctx pf rest (upsertArticle ctx a store)).prepend
      [articleEvent store a]

/-- Embedding of Command.scrape_source (scrape_news.py, lines 74-131): fetch
and select, build the prompt and call the model, strip and decode the JSON,
then upsert each validated article.  Every failure up to validation is logged
and ends the pass normally; a persistence failure propagates. -/
def scrape_source (ctx : RunCtx) (s : Source) (scen : SourceScenario)
    (store : List ArticlePage) : RunOut :=
  match scen.fetch with
  | FetchResult.httpError =>
    RunOut.ok store [Event.httpGet s.url_to_scrape, Event.fetchError]
  | FetchResult.page none =>
    RunOut.ok store [Event.httpGet s.url_to_scrape, Event.selectorError]
  | FetchResult.page (some _) =>
    match scen.model with
    | ModelResult.providerError =>
      RunOut.ok store [Event.httpGet s.url_to_scrape, Event.modelCall, Event.processingError]
    | ModelResult.emptyParts =>
      RunOut.ok store [Event.httpGet s.url_to_scrape, Event.modelCall, Event.emptyResponseError]
    | ModelResult.modelText raw =>
      match clean_json_response (PyVal.pyStr raw) with
      | none =>
        RunOut.ok store [Event.httpGet s.url_to_scrape, Event.modelCall, Event.noJsonError]
      | some cleaned =>
        match scen.decode cleaned with
        | Except.error _ =>
          RunOut.ok store [Event.httpGet s.url_to_scrape, Event.modelCall, Event.processingError]
        | Except.ok arts =>
          (processArticles ctx scen.persistFail arts store).prepend
            [Event.httpGet s.url_to_scrape, Event.modelCall]

/-- The per-source loop of Command.handle (scrape_news.py, lines 68-70): each
source is announced and scraped in turn; the loop body is not guarded, so an
exception from one source aborts the remaining ones. -/
def runSources (ctx : RunCtx) : List (Source × SourceScenario) → List ArticlePage → RunOut
  | [], store => RunOut.ok store []
  | e :: rest, store =>
    match scrape_source ctx e.1 e.2 store with
    | RunOut.ok st evs =>
      (runSources ctx rest st).prepend (Event.scrapingSource e.1.name :: evs)
    | RunOut.err x st evs => RunOut.err x st (Event.scrapingSource e.1.name :: evs)

/-- One invocation of the command: the GOOGLE_API_KEY value if set, the
optional --source argument, the ScrapingSource table paired with each
source's external scenario, and whether a live NewsListPage exists. -/
structure RunInput where
  apiKey : Option String
  sourceArg : Option String
  sources : List (Source × SourceScenario)
  listingExists : Bool

/-- The effective --source argument: Python truthiness makes an empty string
equivalent to an absent argument. -/
def namedArg (inp : RunInput) : Option String :=
  match inp.sourceArg with
  | some q => if q = "" then none else some q
  | none => none

/-- Embedding of the source lookup (scrape_news.py, lines 55-61): filter by
name__iexact (modelled as charwise lowercase equality) and is_active for a
named run, by is_active alone otherwise. -/
def lowerEq (a b : String) : Bool :=
  a.toList.map Char.toLower == b.toList.map Char.toLower

def resolveSources (inp : RunInput) : List (Source × SourceScenario) :=
  match namedArg inp with
  | some q => inp.sources.filter (fun p => p.1.is_active && lowerEq p.1.name q)
  | none => inp.sources.filter (fun p => p.1.is_active)

/-- The tail of Command.handle after source resolution (scrape_news.py, lines
63-72): require a live listing page, loop over the sources, then log the
final completion line. -/
def afterResolve (ctx : RunCtx) (listing : Bool) (resolved : List (Source × SourceScenario))
    (store : List ArticlePage) : RunOut :=
  if listing then
    match runSources ctx resolved store with
    | RunOut.ok st evs => RunOut.ok st (evs ++ [Event.done])
    | RunOut.err x st evs => RunOut.err x st evs
  else RunOut.ok store [Event.noListingError]

/-- Embedding of Command.handle (scrape_news.py, lines 45-72): API-key check,
source resolution with the named-source guard, listing-page check, the
per-source loop and the final log line. -/
def handle (ctx : RunCtx) (inp : RunInput) (store : List ArticlePage) : RunOut :=
  match inp.apiKey with
  | none => RunOut.ok store [Event.configError]
  | some k =>
    if k = "" then RunOut.ok store [Event.configError]
    else
      match namedArg inp with
      | some _ =>
        if (resolveSources inp).isEmpty then RunOut.ok store [Event.noSourceError]
        else afterResolve ctx inp.listingExists (resolveSources inp) store
      | none => afterResolve ctx inp.listingExists (resolveSources inp) store

/-- C6: a run with the API key absent or empty aborts before anything else
happens: exactly one configuration error is logged, there is no HTTP request
event, no model call event and no page event, and the store is untouched. -/
theorem c6_missing_api_key_aborts (ctx : RunCtx) (inp : RunInput)
    (store : List ArticlePage) (h : inp.apiKey = none ∨ inp.apiKey = some "") :
    handle ctx inp store = RunOut.ok store [Event.configError] := by
  rcases h with h | h
  · simp [handle, h]
  · simp [handle, h]

theorem c6_witness :
    handle ⟨7, 1, fun _ => 0⟩
        { apiKey := none, sourceArg := none, sources := [], listingExists := true } [] =
      RunOut.ok [] [Event.configError] :=
  c6_missing_api_key_aborts ⟨7, 1, fun _ => 0⟩
    { apiKey := none, sourceArg := none, sources := [], listingExists := true } []
    (Or.inl rfl)

/-- C7: when the fetched page has no element matching the configured CSS
selector, the source's pass stops with the selector error right after the
HTTP request: no model call event, no validation, no page creation or update,
and the store is unchanged. -/
theorem c7_selector_miss_no_downstream (ctx : RunCtx) (s : Source)
    (scen : SourceScenario) (store : List ArticlePage)
    (h : scen.fetch = FetchResult.page none) :
    scrape_source ctx s scen store =
      RunOut.ok store [Event.httpGet s.url_to_scrape, Event.selectorError] := by
  simp [scrape_source, h]

theorem c7_witness :
    scrape_source ⟨7, 1, fun _ => 0⟩ ⟨"A", "http://a/l", "http://a", "#m", true⟩
        { fetch := FetchResult.page none, model := ModelResult.emptyParts,
          decode := fun _ => Except.error (), persistFail := fun _ => false } [] =
      RunOut.ok [] [Event.httpGet "http://a/l", Event.selectorError] :=
  c7_selector_miss_no_downstream ⟨7, 1, fun _ => 0⟩
    ⟨"A", "http://a/l", "http://a", "#m", true⟩
    { fetch := FetchResult.page none, model := ModelResult.emptyParts,
      decode := fun _ => Except.error (), persistFail := fun _ => false } [] rfl

theorem processArticles_isOk (ctx : RunCtx) (pf : Article → Bool) (arts : List Article)
    (h : ∀ a ∈ arts, pf a = false) :
    ∀ store, (processArticles ctx pf arts store).isOk = true := by
  induction arts with
  | nil => intro store; rfl
  | cons a rest ih =>
    intro store
    have ha : pf a = false := h a (List.mem_cons_self a rest)
    have hrest : ∀ b ∈ rest, pf b = false := fun b hb => h b (List.mem_cons_of_mem a hb)
    simp [processArticles, ha, RunOut.isOk_prepend, ih hrest]

theorem scrape_source_isOk (ctx : RunCtx) (s : Source) (scen : SourceScenario)
    (store : List ArticlePage) (h : ∀ a, scen.persistFail a = false) :
    (scrape_source ctx s scen store).isOk = true := by
  cases hfetch : scen.fetch with
  | httpError => simp [scrape_source, hfetch, RunOut.isOk]
  | page m =>
    cases m with
    | none => simp [scrape_source, hfetch, RunOut.isOk]
    | some snip =>
      cases hmodel : scen.model with
      | providerError => simp [scrape_source, hfetch, hmodel, RunOut.isOk]
      | emptyParts => simp [scrape_source, hfetch, hmodel, RunOut.isOk]
      | modelText raw =>
        cases hclean : clean_json_response (PyVal.pyStr raw) with
        | none => simp [scrape_source, hfetch, hmodel, hclean, RunOut.isOk]
        | some cleaned =>
          cases hdec : scen.decode cleaned with
          | error e => simp [scrape_source, hfetch, hmodel, hclean, hdec, RunOut.isOk]
          | ok arts =>
            simp [scrape_source, hfetch, hmodel, hclean, hdec, RunOut.isOk_prepend,
              processArticles_isOk ctx scen.persistFail arts (fun a _ => h a)]

theorem runSources_isOk_markers (ctx : RunCtx) (entries : List (Source × SourceScenario))
    (h : ∀ p ∈ entries, ∀ a, p.2.persistFail a = false) :
    ∀ store, (runSources ctx entries store).isOk = true ∧
      ∀ p ∈ entries,
        Event.scrapingSource p.1.name ∈ (runSources ctx entries store).events := by
  induction entries with
  | nil =>
    intro store
    exact ⟨rfl, by intro p hp; simp at hp⟩
  | cons e rest ih =>
    intro store
    have he : ∀ a, e.2.persistFail a = false := h e (List.mem_cons_self e rest)
    have hr : ∀ p ∈ rest, ∀ a, p.2.persistFail a = false :=
      fun p hp => h p (List.mem_cons_of_mem e hp)
    have hok := scrape_source_isOk ctx e.1 e.2 store he
    cases hs : scrape_source ctx e.1 e.2 store with
    | err x st evs =>
      rw [hs] at hok
      exact absurd hok (by simp [RunOut.isOk])
    | ok st evs =>
      have hih := ih hr st
      have hev : (runSources ctx (e :: rest) store).events
          = (Event.scrapingSource e.1.name :: evs) ++ (runSources ctx rest st).events := by
        simp [runSources, hs, RunOut.events_prepend]
      constructor
      · simp [runSources, hs, RunOut.isOk_prepend, hih.1]
      · intro p hp
        rw [hev]
        rcases List.mem_cons.mp hp with hpe | hp2
        · subst hpe
          exact List.mem_append_left _ (List.mem_cons_self _ _)
        · exact List.mem_append_right _ (hih.2 p hp2)

theorem afterResolve_props (ctx : RunCtx) (listing : Bool)
    (resolved : List (Source × SourceScenario)) (store : List ArticlePage)
    (h : ∀ p ∈ resolved, ∀ a, p.2.persistFail a = false) :
    (afterResolve ctx listing resolved store).isOk = true ∧
    (listing = true →
      (afterResolve ctx listing resolved store).events.getLast? = some Event.done ∧
      ∀ p ∈ resolved,
        Event.scrapingSource p.1.name ∈ (afterResolve ctx listing resolved store).events) := by
  cases listing with
  | false =>
    constructor
    · simp [afterResolve, RunOut.isOk]
    · intro hfalse
      exact Bool.noConfusion hfalse
  | true =>
    have hrs := runSources_isOk_markers ctx resolved h store
    cases hr : runSources ctx resolved store with
    | err x st evs =>
      rw [hr] at hrs
      exact absurd hrs.1 (by simp [RunOut.isOk])
    | ok st evs =>
      have hrw : afterResolve ctx true resolved store = RunOut.ok st (evs ++ [Event.done]) := by
        simp [afterResolve, hr]
      rw [hrw]
      refine ⟨rfl, fun _ => ⟨?_, ?_⟩⟩
      · simp [RunOut.events, List.getLast?_concat]
      · intro p hp
        have hm := hrs.2 p hp
        rw [hr] at hm
        simp only [RunOut.events] at hm ⊢
        exact List.mem_append_left _ hm

/-- C2 (amended): provided no persistence operation fails, the command never
raises: handle always returns normally; and whenever the configuration checks
pass (an API key present and non-empty, a named source that resolves, a live
listing page) the run ends with the final done log line and every resolved
source is visited, so a fetch, selector, model or validation failure in one
source never aborts the remaining sources.  The uncaught persistence
exception of the counterexample is the only behaviour the original claim got
wrong. -/
theorem c2_amended_no_raise_done (ctx : RunCtx) (inp : RunInput) (store : List ArticlePage)
    (hp : ∀ p ∈ inp.sources, ∀ a, p.2.persistFail a = false) :
    (handle ctx inp store).isOk = true ∧
    ((∃ k, inp.apiKey = some k ∧ k ≠ "") →
      ((namedArg inp).isSome → resolveSources inp ≠ []) →
      inp.listingExists = true →
      (handle ctx inp store).events.getLast? = some Event.done ∧
      ∀ p ∈ resolveSources inp,
        Event.scrapingSource p.1.name ∈ (handle ctx inp store).events) := by
  have hsub : ∀ p ∈ resolveSources inp, p ∈ inp.sources := by
    intro p hp2
    unfold resolveSources at hp2
    cases hn2 : namedArg inp with
    | some q =>
      rw [hn2] at hp2
      exact (List.mem_filter.mp hp2).1
    | none =>
      rw [hn2] at hp2
      exact (List.mem_filter.mp hp2).1
  have hres : ∀ p ∈ resolveSources inp, ∀ a, p.2.persistFail a = false :=
    fun p hp2 => hp p (hsub p hp2)
  cases hk : inp.apiKey with
  | none =>
    constructor
    · simp [handle, hk, RunOut.isOk]
    · rintro ⟨k, hk2, _⟩ _ _
      exact Option.noConfusion hk2
  | some k =>
    by_cases hke : k = ""
    · subst hke
      constructor
      · simp [handle, hk, RunOut.isOk]
      · rintro ⟨k2, hk2, hne⟩ _ _
        exact absurd (Option.some.inj hk2).symm hne
    · cases hn : namedArg inp with
      | none =>
        have hrw : handle ctx inp store =
            afterResolve ctx inp.listingExists (resolveSources inp) store := by
          simp [handle, hk, hke, hn]
        have hprops := afterResolve_props ctx inp.listingExists (resolveSources inp) store hres
        rw [hrw]
        exact ⟨hprops.1, fun _ _ hl => hprops.2 hl⟩
      | some q =>
        by_cases hemp : (resolveSources inp).isEmpty
        · have hrw : handle ctx inp store = RunOut.ok store [Event.noSourceError] := by
            simp [handle, hk, hke, hn, hemp]
          constructor
          · rw [hrw]; rfl
          · intro _ h2 _
            have hne : resolveSources inp ≠ [] := h2 rfl
            exact absurd (List.isEmpty_iff.mp hemp) hne
        · have hrw : handle ctx inp store =
              afterResolve ctx inp.listingExists (resolveSources inp) store := by
            simp [handle, hk, hke, hn, hemp]
          have hprops := afterResolve_props ctx inp.listingExists (resolveSources inp) store hres
          rw [hrw]
          exact ⟨hprops.1, fun _ _ hl => hprops.2 hl⟩

theorem c2_witness :
    (handle ⟨7, 1, fun _ => 0⟩
        { apiKey := some "key", sourceArg := none,
          sources := [(⟨"A", "http://a/l", "http://a", "#m", true⟩,
            { fetch := FetchResult.httpError, model := ModelResult.emptyParts,
              decode := fun _ => Except.error (), persistFail := fun _ => false })],
          listingExists := true } []).isOk = true :=
  (c2_amended_no_raise_done ⟨7, 1, fun _ => 0⟩
    { apiKey := some "key", sourceArg := none,
      sources := [(⟨"A", "http://a/l", "http://a", "#m", true⟩,
        { fetch := FetchResult.httpError, model := ModelResult.emptyParts,
          decode := fun _ => Except.error (), persistFail := fun _ => false })],
      listingExists := true } []
    (by
      intro p hp a
      rw [List.mem_singleton] at hp
      subst hp
      rfl)).1

/-- C2 counterexample: a fully valid configuration, a first source whose
pipeline reaches the upsert loop and whose save raises, and a second healthy
active source.  The command ends in an uncaught persistence error: the done
line is never logged and the second source is never visited, refuting both
that the command never raises past its top level and that a failure in one
source never aborts the rest. -/
theorem c2_counterexample :
    handle ⟨7, 1, fun _ => 0⟩
        { apiKey := some "key", sourceArg := none,
          sources :=
            [(⟨"A", "http://a/l", "http://a", "#m", true⟩,
              { fetch := FetchResult.page (some "snippet"),
                model := ModelResult.modelText [lbrace, rbrace],
                decode := fun _ => Except.ok [⟨"T0", "S0", "http://a/x"⟩],
                persistFail := fun _ => true }),
             (⟨"B", "http://b/l", "http://b", "#m", true⟩,
              { fetch := FetchResult.httpError, model := ModelResult.emptyParts,
                decode := fun _ => Except.error (), persistFail := fun _ => false })],
          listingExists := true } [] =
      RunOut.err (PersistError.saveFailed "T0") []
        [Event.scrapingSource "A", Event.httpGet "http://a/l", Event.modelCall] := by
  rfl

/-- C3 (amended): a persistence failure is not caught at the article
boundary.  When every article before some failing article persists fine and
that article's save or add_child raises, the loop aborts with exactly that
exception: the earlier articles are upserted (one log event each), while the
failing article and all later ones are never attempted — no further store
change and no further log.  Only the DoesNotExist lookup miss is handled, by
creating the page. -/
theorem c3_amended_persist_error_aborts (ctx : RunCtx) (pf : Article → Bool)
    (store : List ArticlePage) (pre : List Article) (b : Article) (rest : List Article)
    (hpre : ∀ a ∈ pre, pf a = false) (hb : pf b = true) :
    (processArticles ctx pf (pre ++ b :: rest) store).error? =
      some (PersistError.saveFailed b.title) ∧
    (processArticles ctx pf (pre ++ b :: rest) store).pages =
      pre.foldl (fun st a => upsertArticle ctx a st) store ∧
    (processArticles ctx pf (pre ++ b :: rest) store).events.length = pre.length := by
  induction pre generalizing store with
  | nil =>
    simp only [List.nil_append, List.foldl_nil]
    simp [processArticles, hb, RunOut.error?, RunOut.pages, RunOut.events]
  | cons a pre2 ih =>
    have ha : pf a = false := hpre a (List.mem_cons_self a pre2)
    have hpre2 : ∀ x ∈ pre2, pf x = false := fun x hx => hpre x (List.mem_cons_of_mem a hx)
    have hih := ih (upsertArticle ctx a store) hpre2
    simp only [List.cons_append, List.foldl_cons]
    simp [processArticles, ha, RunOut.error?_prepend, RunOut.pages_prepend,
      RunOut.events_prepend, hih.1, hih.2.1, hih.2.2]

theorem c3_witness :
    (processArticles ⟨7, 1, fun _ => 0⟩ (fun a => a.title == "B")
        ([(⟨"A1", "S", "http://x/1"⟩ : Article)] ++
          (⟨"B", "S", "http://x/2"⟩ : Article) :: [(⟨"C", "S", "http://x/3"⟩ : Article)])
        []).error? = some (PersistError.saveFailed "B") :=
  (c3_amended_persist_error_aborts ⟨7, 1, fun _ => 0⟩ (fun a => a.title == "B") []
      [⟨"A1", "S", "http://x/1"⟩] ⟨"B", "S", "http://x/2"⟩ [⟨"C", "S", "http://x/3"⟩]
      (by
        intro a ha
        rw [List.mem_singleton] at ha
        subst ha
        rfl)
      rfl).1

/-- C3 counterexample: two validated articles for one source, the first one's
save raising.  The loop ends in the uncaught exception with no article-level
log and an unchanged store, and the second article — which would have been
created — is never attempted: the persistence error is not recovered at the
article boundary. -/
theorem c3_counterexample :
    processArticles ⟨7, 1, fun _ => 0⟩ (fun a => a.title == "T1")
        [⟨"T1", "S1", "http://x/1"⟩, ⟨"T2", "S2", "http://x/2"⟩] [] =
      RunOut.err (PersistError.saveFailed "T1") [] [] := by
  rfl

/-- C10: for a run invoked with a non-empty source name and a valid API key,
the resolved set is exactly the active sources whose name equals the argument
ignoring letter case (Django's name__iexact, modelled as charwise
lowercasing); and when no active source matches, the run stops right after
logging the lookup failure, visiting no source and leaving the store
unchanged. -/
theorem c10_source_lookup_iexact (ctx : RunCtx) (inp : RunInput) (store : List ArticlePage)
    (q k : String) (hq : inp.sourceArg = some q) (hqe : q ≠ "")
    (hk : inp.apiKey = some k) (hke : k ≠ "") :
    (∀ p, p ∈ resolveSources inp ↔
      p ∈ inp.sources ∧ p.1.is_active = true ∧
        p.1.name.toList.map Char.toLower = q.toList.map Char.toLower) ∧
    (resolveSources inp = [] →
      handle ctx inp store = RunOut.ok store [Event.noSourceError]) := by
  have hn : namedArg inp = some q := by simp [namedArg, hq, hqe]
  constructor
  · intro p
    constructor
    · intro hp
      unfold resolveSources at hp
      rw [hn] at hp
      have hmem := List.mem_filter.mp hp
      have hand := hmem.2
      rw [Bool.and_eq_true] at hand
      refine ⟨hmem.1, hand.1, ?_⟩
      have := hand.2
      rw [lowerEq, beq_iff_eq] at this
      exact this
    · rintro ⟨h1, h2, h3⟩
      unfold resolveSources
      rw [hn]
      refine List.mem_filter.mpr ⟨h1, ?_⟩
      rw [Bool.and_eq_true, lowerEq, beq_iff_eq]
      exact ⟨h2, h3⟩
  · intro hres
    have hemp : (resolveSources inp).isEmpty = true := by
      rw [hres]
      rfl
    simp [handle, hk, hke, hn, hemp]

theorem c10_witness :
    handle ⟨7, 1, fun _ => 0⟩
        { apiKey := some "key", sourceArg := some "nope",
          sources := [(⟨"BBC Tech", "http://b/l", "http://b", "#m", true⟩,
            { fetch := FetchResult.httpError, model := ModelResult.emptyParts,
              decode := fun _ => Except.error (), persistFail := fun _ => false })],
          listingExists := true } [] =
      RunOut.ok [] [Event.noSourceError] :=
  (c10_source_lookup_iexact ⟨7, 1, fun _ => 0⟩
    { apiKey := some "key", sourceArg := some "nope",
      sources := [(⟨"BBC Tech", "http://b/l", "http://b", "#m", true⟩,
        { fetch := FetchResult.httpError, model := ModelResult.emptyParts,
          decode := fun _ => Except.error (), persistFail := fun _ => false })],
      listingExists := true } [] "nope" "key" rfl (by decide) rfl (by decide)).2 (by rfl)

/-- A parsed JSON value as json.loads returns it: numbers collapsed into one
constructor, objects as key-value lists in which the last binding of a key
wins, as in a Python dict built from repeated keys. -/
inductive JsonVal where
  | null
  | bool (b : Bool)
  | num (n : Int)
  | str (s : String)
  | arr (items : List JsonVal)
  | obj (fields : List (String × JsonVal))

/-- Dictionary lookup over the field list: the last binding of the key. -/
def lookupLast (fields : List (String × JsonVal)) (k : String) : Option JsonVal :=
  (fields.reverse.find? (fun p => p.1 == k)).map (fun p => p.2)

/-- A string field read from an optional JSON value: the pydantic str type
accepts exactly JSON strings, empty ones included. -/
def asStr : Option JsonVal → Option String
  | some (JsonVal.str s) => some s
  | _ => none

/-- Modelled from the spec: pydantic's HttpUrl field type, described as "a
syntactically valid absolute URL" — here an http or https scheme followed by
a nonempty host containing no space.  The pydantic library itself is outside
the repository; only this shape of the check matters to the claims. -/
def isValidHttpUrl (u : String) : Bool :=
  let cs := u.toList
  let rest : Option (List Char) :=
    if cs.take 7 = "http://".toList then some (cs.drop 7)
    else if cs.take 8 = "https://".toList then some (cs.drop 8)
    else none
  match rest with
  | none => false
  | some r =>
    let host := r.takeWhile (fun c => !(c == Char.ofNat 47))
    !host.isEmpty && host.all (fun c => !(c == Char.ofNat 32))

/-- Embedding of pydantic validation of one article object (scrape_news.py,
lines 16-19): a mapping with a string title, a string summary and an HttpUrl
source_url; extra keys are ignored and no string field carries a
nonemptiness constraint. -/
def validateArticle (v : JsonVal) : Option Article :=
  match v with
  | JsonVal.obj fs =>
    match asStr (lookupLast fs "title"), asStr (lookupLast fs "summary"),
        asStr (lookupLast fs "source_url") with
    | some t, some s, some u =>
      if isValidHttpUrl u then some ⟨t, s, u⟩ else none
    | _, _, _ => none
  | _ => none

/-- Element-wise validation of the articles list, failing when any element
fails, as pydantic's List type does. -/
def validateArticles : List JsonVal → Option (List Article)
  | [] => some []
  | v :: rest =>
    match validateArticle v, validateArticles rest with
    | some a, some l => some (a :: l)
    | _, _ => none

/-- Embedding of ArticleList(**parsed_data) (scrape_news.py, lines 21-22 and
110): the parsed value must be a mapping whose articles key holds a list of
valid article objects; any other shape raises a validation error. -/
def validateArticleList (v : JsonVal) : Option (List Article) :=
  match v with
  | JsonVal.obj fs =>
    match lookupLast fs "articles" with
    | some (JsonVal.arr items) => validateArticles items
    | _ => none
  | _ => none

theorem asStr_eq_some (o : Option JsonVal) (t : String) :
    asStr o = some t ↔ o = some (JsonVal.str t) := by
  cases o with
  | none => simp [asStr]
  | some v => cases v <;> simp [asStr]

theorem validateArticle_some_iff (v : JsonVal) :
    (∃ a, validateArticle v = some a) ↔
    (∃ fs t s u, v = JsonVal.obj fs ∧
      lookupLast fs "title" = some (JsonVal.str t) ∧
      lookupLast fs "summary" = some (JsonVal.str s) ∧
      lookupLast fs "source_url" = some (JsonVal.str u) ∧
      isValidHttpUrl u = true) := by
  cases v with
  | obj fs =>
    constructor
    · rintro ⟨a, ha⟩
      cases ht : asStr (lookupLast fs "title") with
      | none => simp [validateArticle, ht] at ha
      | some t =>
        cases hs : asStr (lookupLast fs "summary") with
        | none => simp [validateArticle, ht, hs] at ha
        | some s =>
          cases hu : asStr (lookupLast fs "source_url") with
          | none => simp [validateArticle, ht, hs, hu] at ha
          | some u =>
            by_cases hv : isValidHttpUrl u
            · exact ⟨fs, t, s, u, rfl, (asStr_eq_some _ _).mp ht,
                (asStr_eq_some _ _).mp hs, (asStr_eq_some _ _).mp hu, hv⟩
            · simp [validateArticle, ht, hs, hu, hv] at ha
    · rintro ⟨fs2, t, s, u, hveq, ht, hs, hu, hval⟩
      injection hveq with hfs
      subst hfs
      refine ⟨⟨t, s, u⟩, ?_⟩
      simp [validateArticle, (asStr_eq_some _ _).mpr ht, (asStr_eq_some _ _).mpr hs,
        (asStr_eq_some _ _).mpr hu, hval]
  | null => simp [validateArticle]
  | bool b => simp [validateArticle]
  | num n => simp [validateArticle]
  | str s => simp [validateArticle]
  | arr items => simp [validateArticle]

theorem validateArticles_some_iff (items : List JsonVal) :
    (∃ l, validateArticles items = some l) ↔
    ∀ it ∈ items, ∃ a, validateArticle it = some a := by
  induction items with
  | nil => simp [validateArticles]
  | cons v rest ih =>
    constructor
    · rintro ⟨l, hl⟩
      cases hv : validateArticle v with
      | none => simp [validateArticles, hv] at hl
      | some a =>
        cases hr : validateArticles rest with
        | none => simp [validateArticles, hv, hr] at hl
        | some l2 =>
          intro it hit
          rcases List.mem_cons.mp hit with hik | hik
          · subst hik
            exact ⟨a, hv⟩
          · exact ih.mp ⟨l2, hr⟩ it hik
    · intro h
      rcases h v (List.mem_cons_self v rest) with ⟨a, ha⟩
      rcases ih.mpr (fun it hit => h it (List.mem_cons_of_mem v hit)) with ⟨l2, hl2⟩
      exact ⟨a :: l2, by simp [validateArticles, ha, hl2]⟩

/-- C4 (amended): pydantic validation of the parsed value succeeds exactly
when the value is a mapping whose articles key holds a list of objects, each
carrying a string title, a string summary and a source_url that is a valid
absolute http(s) URL.  A missing title, a missing summary, a non-string field
or a non-absolute source_url is rejected, as the claim says — but an empty
title is accepted, because the declaration title: str carries no
nonemptiness constraint; the counterexample shows exactly that departure. -/
theorem c4_amended_schema_iff (v : JsonVal) :
    (∃ l, validateArticleList v = some l) ↔
    (∃ fs items, v = JsonVal.obj fs ∧
      lookupLast fs "articles" = some (JsonVal.arr items) ∧
      ∀ it ∈ items, ∃ fs2 t s u, it = JsonVal.obj fs2 ∧
        lookupLast fs2 "title" = some (JsonVal.str t) ∧
        lookupLast fs2 "summary" = some (JsonVal.str s) ∧
        lookupLast fs2 "source_url" = some (JsonVal.str u) ∧
        isValidHttpUrl u = true) := by
  cases v with
  | obj fs =>
    constructor
    · rintro ⟨l, hl⟩
      cases ha : lookupLast fs "articles" with
      | none => simp [validateArticleList, ha] at hl
      | some w =>
        cases w with
        | arr items =>
          refine ⟨fs, items, rfl, ha, ?_⟩
          intro it hit
          have hex : ∃ l2, validateArticles items = some l2 :=
            ⟨l, by simpa [validateArticleList, ha] using hl⟩
          exact (validateArticle_some_iff it).mp
            ((validateArticles_some_iff items).mp hex it hit)
        | null => simp [validateArticleList, ha] at hl
        | bool b => simp [validateArticleList, ha] at hl
        | num n => simp [validateArticleList, ha] at hl
        | str s => simp [validateArticleList, ha] at hl
        | obj fs3 => simp [validateArticleList, ha] at hl
    · rintro ⟨fs2, items, hveq, ha, hall⟩
      injection hveq with hfs
      subst hfs
      have hex : ∀ it ∈ items, ∃ a, validateArticle it = some a :=
        fun it hit => (validateArticle_some_iff it).mpr (hall it hit)
      rcases (validateArticles_some_iff items).mpr hex with ⟨l2, hl2⟩
      exact ⟨l2, by simp [validateArticleList, ha, hl2]⟩
  | null => simp [validateArticleList]
  | bool b => simp [validateArticleList]
  | num n => simp [validateArticleList]
  | str s => simp [validateArticleList]
  | arr items => simp [validateArticleList]

/-- C4 counterexample: an article object whose title is the empty string —
which the claim says must be rejected with a schema error — validates
successfully, because the pydantic declaration title: str accepts any
string, the empty one included. -/
theorem c4_counterexample :
    validateArticleList
        (JsonVal.obj [("articles", JsonVal.arr [JsonVal.obj
          [("title", JsonVal.str ""),
           ("summary", JsonVal.str "sum"),
           ("source_url", JsonVal.str "http://example.com/a")]])]) =
      some [⟨"", "sum", "http://example.com/a"⟩] := by
  rfl

theorem c4_witness :
    ∃ l, validateArticleList (JsonVal.obj [("articles", JsonVal.arr [JsonVal.obj
        [("title", JsonVal.str "T"),
         ("summary", JsonVal.str "S"),
         ("source_url", JsonVal.str "https://example.com/b")]])]) = some l :=
  (c4_amended_schema_iff _).mpr
    ⟨[("articles", JsonVal.arr [JsonVal.obj
        [("title", JsonVal.str "T"),
         ("summary", JsonVal.str "S"),
         ("source_url", JsonVal.str "https://example.com/b")]])],
     [JsonVal.obj [("title", JsonVal.str "T"), ("summary", JsonVal.str "S"),
        ("source_url", JsonVal.str "https://example.com/b")]],
     rfl, rfl,
     by
       intro it hit
       rw [List.mem_singleton] at hit
       subst hit
       exact ⟨_, "T", "S", "https://example.com/b", rfl, rfl, rfl, rfl, rfl⟩⟩

end ScrapeNews
